import Mathlib

/-!
# PDF Summarizer — verification of the task-lifecycle specification

A shallow embedding of the pdf_summarizer repository: the API data model
(`src/unnamed/part_000`, the frontend type declarations), the upload
validation (`src/frontend/src/components/FileUpload.tsx`), the polling
client (`src/frontend/src/components/ProgressTracker.tsx`), the summary
truncation helper (the `HistoryList` component concatenated into
`src/frontend/src/api/client.ts`), and — since the backend Task Store and
Task Engine sources are not in the repository snapshot — a model of the
store and engine built from the specification's contracts (spec §3, §4.1,
§4.2).
-/

namespace PdfSummarizer

/-- Task status values of the union type in `TaskStatusResponse`
(src/unnamed/part_000): `'processing' | 'completed' | 'failed'`. -/
inductive TaskStatus
  | processing
  | completed
  | failed
deriving DecidableEq, Repr

/-- The `ProcessingResult` interface of src/unnamed/part_000: filename,
summary text, page count, processed timestamp, optional file size. -/
structure ProcessingResult where
  filename : String
  summary : String
  page_count : Nat
  processed_at : String
  file_size : Option Nat
deriving DecidableEq, Repr

/-- One task's record, after the `TaskStatusResponse` interface of
src/unnamed/part_000 (minus the redundant `task_id` key, which the store
below keeps as the lookup key): status, integer progress, optional result,
optional error. -/
structure Task where
  status : TaskStatus
  progress : Int
  result : Option ProcessingResult
  error : Option String
deriving DecidableEq, Repr

/-- The `HistoryItem` interface of src/unnamed/part_000. Task ids are
modelled as naturals (the store allocates them sequentially). -/
structure HistoryItem where
  task_id : Nat
  filename : String
  summary : String
  page_count : Nat
  processed_at : String
deriving DecidableEq, Repr

/-! ## Upload validation (FileUpload.tsx) -/

/-- The constant `MAX_FILE_SIZE = 50 * 1024 * 1024` from FileUpload.tsx line 11. -/
def MAX_FILE_SIZE : Nat := 50 * 1024 * 1024

/-- The constant `ALLOWED_TYPE` from FileUpload.tsx line 12, the PDF MIME type. -/
def ALLOWED_TYPE : String := "application/pdf"

/-- The observable attributes of a browser `File` object that
`validateFile` consults: MIME type and byte size (plus the name). -/
structure UploadedFile where
  name : String
  type : String
  size : Nat
deriving DecidableEq, Repr

/-- Function `validateFile` from FileUpload.tsx lines 19–27: a non-PDF MIME type is
rejected first, then a size strictly above `MAX_FILE_SIZE`; a `none`
return means the file is valid. -/
def validateFile (file : UploadedFile) : Option String :=
  if file.type ≠ ALLOWED_TYPE then some "Only PDF files are supported"
  else if file.size > MAX_FILE_SIZE then some "File size must be less than 50MB"
  else none

/-- Outcome of selecting a file in the upload form: either the validation
error is shown and no file is selected, or the file is selected and so is
the one a subsequent `handleUpload` will send. -/
inductive FileChangeResult
  | rejected (error : String)
  | selected (file : UploadedFile)
deriving DecidableEq, Repr

/-- Function `handleFileChange` from FileUpload.tsx lines 29–46, restricted to the
case where a file was picked: a validation error sets the error message and
clears the selection (so `handleUpload` line 49 returns without issuing an
upload request and no task id is ever produced); otherwise the file becomes
the selected file that `handleUpload` uploads. -/
def handleFileChange (file : UploadedFile) : FileChangeResult :=
  match validateFile file with
  | some err => .rejected err
  | none => .selected file

/-! ## Summary truncation (HistoryList component, in client.ts) -/

/-- Function `truncateSummary` from the HistoryList component (concatenated into
src/frontend/src/api/client.ts, lines 109–112): a string of length at most
`maxLength` is returned unchanged, otherwise its first `maxLength`
characters followed by `"..."`. `String.mk (s.data.take n)` embeds
JavaScript's `s.substring(0, n)`. -/
def truncateSummary (summary : String) (maxLength : Nat) : String :=
  if summary.length ≤ maxLength then summary
  else String.mk (summary.data.take maxLength) ++ "..."

/-- The call sites in HistoryList omit the second argument, so the default
`maxLength = 100` from the source signature applies. -/
def truncateSummaryDefault (summary : String) : String :=
  truncateSummary summary 100

/-! ## Polling client (ProgressTracker.tsx) -/

/-- What one `getTaskStatus` round trip inside `pollStatus` can produce:
the fetched `TaskStatusResponse` payload, or a thrown fetch error caught by
the `catch` branch. -/
inductive PollOutcome
  | success (data : Task)
  | failure (msg : String)
deriving DecidableEq, Repr

/-- Whether `pollStatus` (ProgressTracker.tsx lines 27–58) schedules
another poll after this outcome, for a mounted tracker whose polling has
not been stopped: a terminal status returns before scheduling; a
`processing` status schedules the next poll after the fixed 3000 ms delay;
a caught fetch error also re-schedules after the same delay. -/
def schedulesNextPoll : PollOutcome → Bool
  | .success data =>
    if data.status = .completed ∨ data.status = .failed then false
    else if data.status = .processing then true
    else false
  | .failure _ => true

/-- Whether `pollStatus` invokes the `onComplete` callback on this outcome:
only inside the terminal branch, and there only when the fetched status is
`completed`. -/
def invokesOnComplete : PollOutcome → Bool
  | .success data =>
    if data.status = .completed ∨ data.status = .failed then
      if data.status = .completed then true else false
    else false
  | .failure _ => false

/-- The polling loop as a trace: `responses n` is the outcome of the n-th
`getTaskStatus` round trip, and `pollOccurs responses n` says whether the
n-th poll happens — the first always does (`pollStatus()` is called when
the effect starts), and each later one exactly when the previous poll
happened and its outcome scheduled another. -/
def pollOccurs (responses : Nat → PollOutcome) : Nat → Bool
  | 0 => true
  | n + 1 => pollOccurs responses n && schedulesNextPoll (responses n)

/-! ## Task Store (modelled from the spec) -/

/-- Modelled from the spec: the backend Task Store (spec §4.1,
`app/storage/memory_store.py` per the backend README, not in the source
snapshot) — the single in-process mapping from task id to task record,
plus the bounded history list; ids are allocated sequentially from
`nextId` and never reused; `capacity` is the history bound N (default 5). -/
structure Store where
  tasks : Nat → Option Task
  history : List HistoryItem
  nextId : Nat
  capacity : Nat

/-- A freshly created task record: state `processing`, progress 0, neither
result nor error set (spec §4.1 `create`). -/
def newTask : Task :=
  { status := .processing, progress := 0, result := none, error := none }

/-- The store at process start: no tasks, empty history, first id 0,
history capacity `cap`. -/
def initStore (cap : Nat) : Store :=
  { tasks := fun _ => none, history := [], nextId := 0, capacity := cap }

/-- Progress write on a single record: takes effect only while the task is
still `processing` (spec §4.1 `updateProgress`: no-op once terminal). -/
def taskSetProgress (t : Task) (p : Int) : Task :=
  if t.status = .processing then { t with progress := p } else t

/-- Completion transition on a single record: only from `processing`; sets
the result and fixes progress at 100 (spec §3: "fixed at 100 on success";
§4.1 `complete` guard against double completion). -/
def taskCompleteWith (t : Task) (r : ProcessingResult) : Task :=
  if t.status = .processing then
    { t with status := .completed, progress := 100, result := some r }
  else t

/-- Failure transition on a single record: only from `processing`; sets the
error and leaves progress at its last value (spec §3: "frozen at last value
on failure"). -/
def taskFailWith (t : Task) (e : String) : Task :=
  if t.status = .processing then
    { t with status := .failed, error := some e }
  else t

/-- The history snapshot taken of a completing task (spec §3: completed
task summaries, matching the `HistoryItem` projection). -/
def historyEntryOf (id : Nat) (r : ProcessingResult) : HistoryItem :=
  { task_id := id, filename := r.filename, summary := r.summary,
    page_count := r.page_count, processed_at := r.processed_at }

/-- Append a history entry, evicting the oldest entry (FIFO, newest last)
when the capacity would be exceeded (spec §3 History lifecycle). -/
def pushHistory (h : List HistoryItem) (e : HistoryItem) (cap : Nat) : List HistoryItem :=
  if cap < (h ++ [e]).length then (h ++ [e]).tail else h ++ [e]

/-- Modelled from the spec: `create(metadata) -> id` (spec §4.1) —
allocates the next id, inserts a `processing`/progress-0 task, returns the
id; `nextId` only grows, so ids are never reused. -/
def Store.create (s : Store) : Store × Nat :=
  ({ s with
      tasks := fun i => if i = s.nextId then some newTask else s.tasks i,
      nextId := s.nextId + 1 },
   s.nextId)

/-- Result of a status query: the task snapshot, or `NotFound` for an
unknown id (spec §4.1 `get`, §6 Query status). -/
inductive StatusQueryResult
  | notFound
  | found (t : Task)
deriving DecidableEq, Repr

/-- Modelled from the spec: `get(id) -> Task | NotFound` (spec §4.1). -/
def Store.queryStatus (s : Store) (id : Nat) : StatusQueryResult :=
  match s.tasks id with
  | none => .notFound
  | some t => .found t

/-- Modelled from the spec: `updateProgress(id, progress)` (spec §4.1) —
sets progress if the task is still `processing`, no-op on a terminal task
or an unknown id. -/
def Store.updateProgress (s : Store) (id : Nat) (p : Int) : Store :=
  match s.tasks id with
  | some t =>
    if t.status = .processing then
      { s with tasks := fun i => if i = id then some (taskSetProgress t p) else s.tasks i }
    else s
  | none => s

/-- Modelled from the spec: `complete(id, result)` (spec §4.1) —
transitions `processing → completed`, sets the result, appends the history
entry with FIFO eviction; guarded no-op on a task that is not currently
`processing` (double-completion guard) or an unknown id. -/
def Store.complete (s : Store) (id : Nat) (r : ProcessingResult) : Store :=
  match s.tasks id with
  | some t =>
    if t.status = .processing then
      { s with
          tasks := fun i => if i = id then some (taskCompleteWith t r) else s.tasks i,
          history := pushHistory s.history (historyEntryOf id r) s.capacity }
    else s
  | none => s

/-- Modelled from the spec: `fail(id, error)` (spec §4.1) — transitions
`processing → failed`, sets the error, never touches history; same guard
as `complete`. -/
def Store.fail (s : Store) (id : Nat) (e : String) : Store :=
  match s.tasks id with
  | some t =>
    if t.status = .processing then
      { s with tasks := fun i => if i = id then some (taskFailWith t e) else s.tasks i }
    else s
  | none => s

/-- One store mutation, as issued by the Task Engine: task creation, a
progress checkpoint, or one of the two terminal transitions. -/
inductive Op
  | create
  | updateProgress (id : Nat) (p : Int)
  | complete (id : Nat) (r : ProcessingResult)
  | fail (id : Nat) (e : String)

/-- Apply one mutation to the store. -/
def applyOp (s : Store) : Op → Store
  | .create => (s.create).1
  | .updateProgress id p => s.updateProgress id p
  | .complete id r => s.complete id r
  | .fail id e => s.fail id e

/-- Run a sequence of mutations left to right. -/
def runOps (s : Store) : List Op → Store
  | [] => s
  | op :: rest => runOps (applyOp s op) rest

/-- The task ids handed out by the `create` calls of a run, in order: each
`create` issues the store's current `nextId`. -/
def issuedIds (s : Store) : List Op → List Nat
  | [] => []
  | .create :: rest => s.nextId :: issuedIds (applyOp s .create) rest
  | op :: rest => issuedIds (applyOp s op) rest

/-! ## Task Engine pipeline (modelled from the spec) -/

/-- Outcome of the Document Processor collaborator:
`extract(bytes) -> \x7b pages, content \x7d | ContentError` (spec §6). -/
inductive ExtractOutcome
  | ok (pages : Nat) (content : String)
  | contentError (msg : String)

/-- Outcome of the Summarization Client collaborator:
`summarize(content) -> \x7b text \x7d | Error` (spec §6); transient and
permanent failures are treated identically (spec §7). -/
inductive SummarizeOutcome
  | ok (text : String)
  | apiError (msg : String)

/-- Modelled from the spec: the Task Engine's driving algorithm for one
submitted job (spec §4.2 steps 2–4), as the sequence of task snapshots
committed to the store — the freshly created record, then, if extraction
succeeds, the midpoint checkpoint, then the terminal record. Extraction
failure goes straight to `failed` (the Summarization Client is never
invoked); summarization failure fails after the checkpoint; success
completes with the summary, page count and timestamp. Every failure
carries a non-empty description (spec §4.2 retry/failure policy). -/
def pipelineSnapshots (filename processedAt : String)
    (eo : ExtractOutcome) (so : SummarizeOutcome) : List Task :=
  match eo with
  | .contentError msg =>
    [newTask, taskFailWith newTask ("Content extraction failed: " ++ msg)]
  | .ok pages _content =>
    match so with
    | .apiError msg =>
      [newTask, taskSetProgress newTask 50,
       taskFailWith (taskSetProgress newTask 50) ("Summarization failed: " ++ msg)]
    | .ok text =>
      [newTask, taskSetProgress newTask 50,
       taskCompleteWith (taskSetProgress newTask 50)
         { filename := filename, summary := text, page_count := pages,
           processed_at := processedAt, file_size := none }]

/-- Executable check that a list of progress values never decreases. -/
def progressNondecreasing : List Int → Bool
  | a :: b :: rest => if a ≤ b then progressNondecreasing (b :: rest) else false
  | _ => true

/-! ## Helper lemmas -/

/-- Once a poll does not occur, no later poll occurs either: `pollOccurs`
is conjunctive in all earlier outcomes. -/
theorem pollOccurs_false_of_le (responses : Nat → PollOutcome) {n m : Nat}
    (h : pollOccurs responses n = false) (hnm : n ≤ m) :
    pollOccurs responses m = false := by
  induction hnm with
  | refl => exact h
  | step _ ih =>
    simp only [pollOccurs, Bool.and_eq_false_imp] at ih ⊢
    exact fun k => absurd ih (by simp [k])

/-! ## Claim theorems -/

/-- C4: a submitted file whose MIME type is not `application/pdf` or whose
size exceeds the 50MB ceiling is rejected synchronously by the client-side
validation — no file is selected, so `handleUpload` never issues an upload
request and no task id is produced; a file passing both checks becomes the
selected file accepted for upload. -/
theorem validateFile_rejects_invalid_accepts_valid (file : UploadedFile) :
    (file.type ≠ ALLOWED_TYPE ∨ MAX_FILE_SIZE < file.size →
      ∃ err, handleFileChange file = .rejected err) ∧
    (file.type = ALLOWED_TYPE → file.size ≤ MAX_FILE_SIZE →
      handleFileChange file = .selected file) := by
  constructor
  · intro h
    by_cases htype : file.type = ALLOWED_TYPE
    · rcases h with h | h
      · exact absurd htype h
      · exact ⟨"File size must be less than 50MB",
          by simp [handleFileChange, validateFile, htype, h]⟩
    · exact ⟨"Only PDF files are supported",
        by simp [handleFileChange, validateFile, htype]⟩
  · intro htype hsize
    simp [handleFileChange, validateFile, htype, not_lt.mpr hsize]

/-- Witness for C4: a 60MB PDF exceeds the ceiling and is rejected; a small
PDF is accepted for upload. -/
theorem validateFile_rejects_invalid_accepts_valid_witness :
    (MAX_FILE_SIZE < 60 * 1024 * 1024 ∧
      ∃ err, handleFileChange ⟨"big.pdf", "application/pdf", 60 * 1024 * 1024⟩ =
        .rejected err) ∧
    handleFileChange ⟨"ok.pdf", "application/pdf", 1024⟩ =
      .selected ⟨"ok.pdf", "application/pdf", 1024⟩ :=
  ⟨⟨by decide,
    (validateFile_rejects_invalid_accepts_valid _).1 (Or.inr (by decide))⟩,
   (validateFile_rejects_invalid_accepts_valid _).2 rfl (by decide)⟩

/-- C6: the polling client keeps polling while every fetched status is
`processing` (in particular the first poll always happens), and once a poll
returns a terminal status — `completed` or `failed` — no later poll is
scheduled for that task. -/
theorem polling_while_processing_stops_at_terminal (responses : Nat → PollOutcome) :
    (∀ n, (∀ k, k < n → ∃ t, responses k = .success t ∧ t.status = .processing) →
      pollOccurs responses n = true) ∧
    (∀ n t, responses n = .success t →
      (t.status = .completed ∨ t.status = .failed) →
      ∀ m, n < m → pollOccurs responses m = false) := by
  constructor
  · intro n
    induction n with
    | zero => intro _; rfl
    | succ k ih =>
      intro h
      obtain ⟨t, hk, hproc⟩ := h k (Nat.lt_succ_self k)
      simp only [pollOccurs, Bool.and_eq_true]
      refine ⟨ih fun j hj => h j (Nat.lt_succ_of_lt hj), ?_⟩
      simp [schedulesNextPoll, hk, hproc]
  · intro n t hn hterm m hm
    have hstop : pollOccurs responses (n + 1) = false := by
      simp only [pollOccurs, Bool.and_eq_false_iff]
      right
      rcases hterm with h | h <;> simp [schedulesNextPoll, hn, h]
    exact pollOccurs_false_of_le responses hstop hm

/-- Witness for C6: with a task that completes on its second poll, three
polls behave as claimed — the second poll occurs (the first returned
`processing`), and the third is never scheduled. -/
theorem polling_while_processing_stops_at_terminal_witness :
    pollOccurs
      (fun n => if n = 0 then .success ⟨.processing, 40, none, none⟩
                else .success ⟨.completed, 100, some ⟨"a.pdf", "sum", 2, "t", none⟩, none⟩)
      1 = true ∧
    pollOccurs
      (fun n => if n = 0 then .success ⟨.processing, 40, none, none⟩
                else .success ⟨.completed, 100, some ⟨"a.pdf", "sum", 2, "t", none⟩, none⟩)
      2 = false :=
  ⟨(polling_while_processing_stops_at_terminal _).1 1
    (fun k hk => by
      interval_cases k
      exact ⟨⟨.processing, 40, none, none⟩, rfl, rfl⟩),
   (polling_while_processing_stops_at_terminal _).2 1
    ⟨.completed, 100, some ⟨"a.pdf", "sum", 2, "t", none⟩, none⟩
    rfl (Or.inl rfl) 2 (by decide)⟩

/-- C8: a failed status fetch does not end the polling loop — the `catch`
branch re-schedules another poll after the fixed delay whenever polling has
not been stopped, so a poll that occurs and fails is always followed by the
next poll. -/
theorem fetch_failure_reschedules_poll (responses : Nat → PollOutcome)
    (n : Nat) (msg : String) :
    schedulesNextPoll (.failure msg) = true ∧
    (responses n = .failure msg → pollOccurs responses n = true →
      pollOccurs responses (n + 1) = true) := by
  refine ⟨rfl, fun hn hocc => ?_⟩
  simp [pollOccurs, hocc, hn, schedulesNextPoll]

/-- Witness for C8: a trace whose first fetch throws still performs the
second poll. -/
theorem fetch_failure_reschedules_poll_witness :
    schedulesNextPoll (.failure "Network Error") = true ∧
    pollOccurs (fun _ => .failure "Network Error") 1 = true :=
  ⟨(fetch_failure_reschedules_poll (fun _ => .failure "Network Error") 0
      "Network Error").1,
   (fetch_failure_reschedules_poll (fun _ => .failure "Network Error") 0
      "Network Error").2 rfl rfl⟩

/-- C10: `onComplete` is invoked exactly when the fetched status is
`completed` — never on a fetch error — and another poll is scheduled
exactly when the fetched status is `processing`, so a `failed` status stops
polling without invoking `onComplete` and never triggers the history
refresh. -/
theorem onComplete_iff_completed :
    (∀ t, invokesOnComplete (.success t) = (t.status == TaskStatus.completed)) ∧
    (∀ msg, invokesOnComplete (.failure msg) = false) ∧
    (∀ t, schedulesNextPoll (.success t) = (t.status == TaskStatus.processing)) := by
  refine ⟨fun t => ?_, fun msg => rfl, fun t => ?_⟩ <;>
    obtain ⟨st, p, r, e⟩ := t <;> cases st <;> rfl

/-- Length of a truncated prefix with the `"..."` suffix appended. -/
theorem length_mk_append_dots (l : List Char) :
    (String.mk l ++ "...").length = l.length + 3 := by
  show (String.mk (l ++ "...".data)).length = l.length + 3
  show (l ++ "...".data).length = l.length + 3
  simp

/-- C9: with the default maximum length 100, `truncateSummary` returns a
string of at most 100 characters unchanged and otherwise the first 100
characters followed by `"..."`; hence the result never exceeds 103
characters, and the function is idempotent. -/
theorem truncateSummary_default_spec (s : String) :
    (s.length ≤ 100 → truncateSummaryDefault s = s) ∧
    (100 < s.length →
      truncateSummaryDefault s = String.mk (s.data.take 100) ++ "...") ∧
    (truncateSummaryDefault s).length ≤ 103 ∧
    truncateSummaryDefault (truncateSummaryDefault s) = truncateSummaryDefault s := by
  have hdata : s.length = s.data.length := rfl
  by_cases h : s.length ≤ 100
  · refine ⟨fun _ => ?_, fun hgt => absurd h (not_le.mpr hgt), ?_, ?_⟩ <;>
      simp [truncateSummaryDefault, truncateSummary, h]
    omega
  · have hge : 100 ≤ s.data.length := le_of_lt (by rw [← hdata]; exact not_le.mp h)
    have htake : (s.data.take 100).length = 100 := by
      rw [List.length_take]
      omega
    have hbig : truncateSummaryDefault s = String.mk (s.data.take 100) ++ "..." := by
      simp [truncateSummaryDefault, truncateSummary, h]
    have hln : (truncateSummaryDefault s).length = 103 := by
      rw [hbig, length_mk_append_dots, htake]
    refine ⟨fun hle => absurd hle h, fun _ => hbig, by omega, ?_⟩
    rw [hbig]
    show truncateSummaryDefault (String.mk (s.data.take 100) ++ "...") = _
    have h2 : ¬ (String.mk (s.data.take 100) ++ "...").length ≤ 100 := by
      rw [length_mk_append_dots, htake]; omega
    rw [truncateSummaryDefault, truncateSummary, if_neg h2]
    have hdat : (String.mk (s.data.take 100) ++ "...").data =
        s.data.take 100 ++ "...".data := rfl
    rw [hdat, List.take_append_of_le_length (le_of_eq htake.symm)]
    simp [List.take_take]

/-- Witness for C9: a short string passes through unchanged; a 101-`'a'`
string is cut to its first 100 characters plus the ellipsis. -/
theorem truncateSummary_default_spec_witness :
    (("short" : String).length ≤ 100 ∧ truncateSummaryDefault "short" = "short") ∧
    (100 < (String.mk (List.replicate 101 'a')).length ∧
      truncateSummaryDefault (String.mk (List.replicate 101 'a')) =
        String.mk ((List.replicate 101 'a').take 100) ++ "...") :=
  ⟨⟨by decide, (truncateSummary_default_spec "short").1 (by decide)⟩,
   ⟨by decide, (truncateSummary_default_spec _).2.1 (by decide)⟩⟩

/-- Preservation of a per-task predicate by one store mutation: it is
enough that the predicate holds of a fresh task and is preserved by each of
the three record transitions when fired from `processing`. -/
theorem applyOp_task_invariant (P : Task → Prop)
    (hnew : P newTask)
    (hset : ∀ t p, t.status = .processing → P t → P (taskSetProgress t p))
    (hcomp : ∀ t r, t.status = .processing → P t → P (taskCompleteWith t r))
    (hfail : ∀ t e, t.status = .processing → P t → P (taskFailWith t e))
    (s : Store) (op : Op)
    (hs : ∀ id t, s.tasks id = some t → P t) :
    ∀ id t, (applyOp s op).tasks id = some t → P t := by
  intro id t h
  cases op with
  | create =>
    by_cases hid : id = s.nextId
    · simp [applyOp, Store.create, hid] at h
      exact h ▸ hnew
    · simp [applyOp, Store.create, hid] at h
      exact hs id t h
  | updateProgress id0 p =>
    cases h0 : s.tasks id0 with
    | none =>
      simp [applyOp, Store.updateProgress, h0] at h
      exact hs id t h
    | some t0 =>
      by_cases hp : t0.status = .processing
      · by_cases hid : id = id0
        · subst hid
          simp [applyOp, Store.updateProgress, h0, hp] at h
          exact h ▸ hset t0 p hp (hs id t0 h0)
        · simp [applyOp, Store.updateProgress, h0, hp, hid] at h
          exact hs id t h
      · simp [applyOp, Store.updateProgress, h0, hp] at h
        exact hs id t h
  | complete id0 r =>
    cases h0 : s.tasks id0 with
    | none =>
      simp [applyOp, Store.complete, h0] at h
      exact hs id t h
    | some t0 =>
      by_cases hp : t0.status = .processing
      · by_cases hid : id = id0
        · subst hid
          simp [applyOp, Store.complete, h0, hp] at h
          exact h ▸ hcomp t0 r hp (hs id t0 h0)
        · simp [applyOp, Store.complete, h0, hp, hid] at h
          exact hs id t h
      · simp [applyOp, Store.complete, h0, hp] at h
        exact hs id t h
  | fail id0 e =>
    cases h0 : s.tasks id0 with
    | none =>
      simp [applyOp, Store.fail, h0] at h
      exact hs id t h
    | some t0 =>
      by_cases hp : t0.status = .processing
      · by_cases hid : id = id0
        · subst hid
          simp [applyOp, Store.fail, h0, hp] at h
          exact h ▸ hfail t0 e hp (hs id t0 h0)
        · simp [applyOp, Store.fail, h0, hp, hid] at h
          exact hs id t h
      · simp [applyOp, Store.fail, h0, hp] at h
        exact hs id t h

/-- A per-task predicate preserved by every mutation holds of every task
reachable by a run. -/
theorem runOps_task_invariant (P : Task → Prop)
    (hnew : P newTask)
    (hset : ∀ t p, t.status = .processing → P t → P (taskSetProgress t p))
    (hcomp : ∀ t r, t.status = .processing → P t → P (taskCompleteWith t r))
    (hfail : ∀ t e, t.status = .processing → P t → P (taskFailWith t e)) :
    ∀ (ops : List Op) (s : Store), (∀ id t, s.tasks id = some t → P t) →
      ∀ id t, (runOps s ops).tasks id = some t → P t := by
  intro ops
  induction ops with
  | nil => intro s hs; exact hs
  | cons op rest ih =>
    intro s hs
    exact ih (applyOp s op)
      (applyOp_task_invariant P hnew hset hcomp hfail s op hs)

/-- Mutual exclusivity of the result and error fields, relative to the
task's state: exactly the field the state calls for is set. -/
def taskConsistent (t : Task) : Prop :=
  (t.status = .completed → t.result.isSome = true ∧ t.error = none) ∧
  (t.status = .failed → t.error.isSome = true ∧ t.result = none) ∧
  (t.status = .processing → t.result = none ∧ t.error = none)

/-- A fresh task is consistent: `processing` with neither field set. -/
theorem newTask_consistent : taskConsistent newTask := by
  simp [taskConsistent, newTask]

/-- Progress writes touch neither state nor result nor error. -/
theorem taskConsistent_setProgress (t : Task) (p : Int)
    (hp : t.status = .processing) (ht : taskConsistent t) :
    taskConsistent (taskSetProgress t p) := by
  simpa [taskSetProgress, hp, taskConsistent] using ht

/-- Completing a `processing` task (whose error is unset) yields a
consistent `completed` task. -/
theorem taskConsistent_completeWith (t : Task) (r : ProcessingResult)
    (hp : t.status = .processing) (ht : taskConsistent t) :
    taskConsistent (taskCompleteWith t r) := by
  obtain ⟨-, -, h3⟩ := ht
  obtain ⟨-, he⟩ := h3 hp
  simp [taskCompleteWith, taskConsistent, hp, he]

/-- Failing a `processing` task (whose result is unset) yields a
consistent `failed` task. -/
theorem taskConsistent_failWith (t : Task) (e : String)
    (hp : t.status = .processing) (ht : taskConsistent t) :
    taskConsistent (taskFailWith t e) := by
  obtain ⟨-, -, h3⟩ := ht
  obtain ⟨hr, -⟩ := h3 hp
  simp [taskFailWith, taskConsistent, hp, hr]

/-- C1: in every store state reachable by any sequence of mutations,
every task satisfies the result/error exclusivity invariant — a
`completed` task has its result set and its error unset, a `failed` task
has its error set and its result unset, and a `processing` task has
neither set. -/
theorem terminal_state_result_error_invariant (cap : Nat) (ops : List Op)
    (id : Nat) (t : Task)
    (h : (runOps (initStore cap) ops).tasks id = some t) :
    taskConsistent t :=
  runOps_task_invariant taskConsistent newTask_consistent
    taskConsistent_setProgress taskConsistent_completeWith
    taskConsistent_failWith ops (initStore cap)
    (fun _ _ h0 => by simp [initStore] at h0) id t h

/-- Witness for C1: after creating task 0 and completing it, the stored
record is `completed` with its result set and error unset, and the
invariant theorem applies to it. -/
theorem terminal_state_result_error_invariant_witness :
    (runOps (initStore 5)
        [.create, .complete 0 ⟨"a.pdf", "sum", 2, "t0", none⟩]).tasks 0 =
      some ⟨.completed, 100, some ⟨"a.pdf", "sum", 2, "t0", none⟩, none⟩ ∧
    taskConsistent ⟨.completed, 100, some ⟨"a.pdf", "sum", 2, "t0", none⟩, none⟩ :=
  ⟨rfl, terminal_state_result_error_invariant 5
    [.create, .complete 0 ⟨"a.pdf", "sum", 2, "t0", none⟩] 0
    ⟨.completed, 100, some ⟨"a.pdf", "sum", 2, "t0", none⟩, none⟩ rfl⟩

/-- C2: progress over a task's lifetime — along every engine pipeline the
sequence of committed progress values is non-decreasing and stays within
0–100; in every reachable store state a `completed` task has progress
exactly 100; and the failure transition never changes progress, so a
`failed` task keeps the last value it had while `processing`. -/
theorem progress_monotone_bounded :
    (∀ fn ts eo so,
      progressNondecreasing
        ((pipelineSnapshots fn ts eo so).map Task.progress) = true) ∧
    (∀ fn ts eo so t, t ∈ pipelineSnapshots fn ts eo so →
      0 ≤ t.progress ∧ t.progress ≤ 100) ∧
    (∀ cap ops id t, (runOps (initStore cap) ops).tasks id = some t →
      t.status = .completed → t.progress = 100) ∧
    (∀ t e, (taskFailWith t e).progress = t.progress) := by
  refine ⟨?_, ?_, ?_, ?_⟩
  · intro fn ts eo so
    cases eo with
    | contentError msg => rfl
    | ok pages content => cases so <;> rfl
  · intro fn ts eo so t ht
    cases eo with
    | contentError msg =>
      simp only [pipelineSnapshots, List.mem_cons, List.mem_singleton] at ht
      rcases ht with rfl | rfl | h
      · exact ⟨le_refl 0, by norm_num [newTask]⟩
      · exact ⟨le_refl 0, by norm_num [taskFailWith, newTask]⟩
      · simp at h
    | ok pages content =>
      cases so with
      | apiError msg =>
        simp only [pipelineSnapshots, List.mem_cons, List.mem_singleton] at ht
        rcases ht with rfl | rfl | rfl | h
        · exact ⟨le_refl 0, by norm_num [newTask]⟩
        · refine ⟨?_, ?_⟩ <;> norm_num [taskSetProgress, newTask]
        · refine ⟨?_, ?_⟩ <;> norm_num [taskFailWith, taskSetProgress, newTask]
        · simp at h
      | ok text =>
        simp only [pipelineSnapshots, List.mem_cons, List.mem_singleton] at ht
        rcases ht with rfl | rfl | rfl | h
        · exact ⟨le_refl 0, by norm_num [newTask]⟩
        · refine ⟨?_, ?_⟩ <;> norm_num [taskSetProgress, newTask]
        · refine ⟨?_, ?_⟩ <;> norm_num [taskCompleteWith, taskSetProgress, newTask]
        · simp at h
  · intro cap ops id t h hc
    exact runOps_task_invariant (fun t => t.status = .completed → t.progress = 100)
      (by simp [newTask])
      (fun t p hp _ => by simp [taskSetProgress, hp])
      (fun t r hp _ => by simp [taskCompleteWith, hp])
      (fun t e hp _ => by simp [taskFailWith, hp])
      ops (initStore cap)
      (fun _ _ h0 => by simp [initStore] at h0) id t h hc
  · intro t e
    unfold taskFailWith
    split <;> rfl

/-- Witness for C2: the fresh task of a successful pipeline is one of its
snapshots and sits inside the 0–100 range, and the completed record of the
concrete run used for C1's witness has progress 100. -/
theorem progress_monotone_bounded_witness :
    (newTask ∈ pipelineSnapshots "a.pdf" "t0" (.ok 2 "content") (.ok "sum") ∧
      0 ≤ newTask.progress ∧ newTask.progress ≤ 100) ∧
    ((runOps (initStore 5)
        [.create, .complete 0 ⟨"b.pdf", "sum2", 3, "t1", none⟩]).tasks 0 =
      some ⟨.completed, 100, some ⟨"b.pdf", "sum2", 3, "t1", none⟩, none⟩ ∧
      (⟨.completed, 100, some ⟨"b.pdf", "sum2", 3, "t1", none⟩, none⟩ : Task).progress = 100) :=
  ⟨⟨by simp [pipelineSnapshots],
    progress_monotone_bounded.2.1 "a.pdf" "t0" (.ok 2 "content") (.ok "sum")
      newTask (by simp [pipelineSnapshots])⟩,
   ⟨rfl,
    progress_monotone_bounded.2.2.1 5
      [.create, .complete 0 ⟨"b.pdf", "sum2", 3, "t1", none⟩] 0
      ⟨.completed, 100, some ⟨"b.pdf", "sum2", 3, "t1", none⟩, none⟩ rfl rfl⟩⟩

/-- The `complete` guard: a task that is not currently `processing` is
left untouched, store and history alike. -/
theorem complete_of_not_processing {s : Store} {id : Nat} {t : Task}
    (h : s.tasks id = some t) (ht : ¬ t.status = .processing)
    (r : ProcessingResult) : s.complete id r = s := by
  simp [Store.complete, h, ht]

/-- The `fail` guard: same no-op on a task that is not `processing`. -/
theorem fail_of_not_processing {s : Store} {id : Nat} {t : Task}
    (h : s.tasks id = some t) (ht : ¬ t.status = .processing)
    (e : String) : s.fail id e = s := by
  simp [Store.fail, h, ht]

/-- The `updateProgress` guard: no-op on a task that is not `processing`,
so a late progress write cannot resurrect a finished task. -/
theorem updateProgress_of_not_processing {s : Store} {id : Nat} {t : Task}
    (h : s.tasks id = some t) (ht : ¬ t.status = .processing)
    (p : Int) : s.updateProgress id p = s := by
  simp [Store.updateProgress, h, ht]

/-- After a successful `complete`, the stored record at that id is the
completed task. -/
theorem complete_tasks_self {s : Store} {id : Nat} {t : Task}
    (h : s.tasks id = some t) (ht : t.status = .processing)
    (r : ProcessingResult) :
    (s.complete id r).tasks id = some (taskCompleteWith t r) := by
  simp [Store.complete, h, ht]

/-- After a successful `fail`, the stored record at that id is the failed
task. -/
theorem fail_tasks_self {s : Store} {id : Nat} {t : Task}
    (h : s.tasks id = some t) (ht : t.status = .processing)
    (e : String) : (s.fail id e).tasks id = some (taskFailWith t e) := by
  simp [Store.fail, h, ht]

/-- C5: a task transitions at most once into a terminal state — after a
first `complete` or `fail` on a `processing` task, a second `complete` or
`fail` on the same id leaves the stored state unchanged; and on a task
already terminal, `complete`, `fail` and `updateProgress` are all no-ops,
so no transition ever leaves a terminal state. -/
theorem terminal_transition_at_most_once (s : Store) (id : Nat) (t : Task)
    (h : s.tasks id = some t) :
    (t.status = .processing →
      (∀ r r2, (s.complete id r).complete id r2 = s.complete id r) ∧
      (∀ r e, (s.complete id r).fail id e = s.complete id r) ∧
      (∀ e r, (s.fail id e).complete id r = s.fail id e) ∧
      (∀ e e2, (s.fail id e).fail id e2 = s.fail id e)) ∧
    (t.status ≠ .processing →
      (∀ r, s.complete id r = s) ∧
      (∀ e, s.fail id e = s) ∧
      (∀ p, s.updateProgress id p = s)) := by
  constructor
  · intro hp
    have hcstat : ∀ r : ProcessingResult,
        ¬ (taskCompleteWith t r).status = .processing := by
      intro r
      simp [taskCompleteWith, hp]
    have hfstat : ∀ e : String, ¬ (taskFailWith t e).status = .processing := by
      intro e
      simp [taskFailWith, hp]
    refine ⟨fun r r2 => ?_, fun r e => ?_, fun e r => ?_, fun e e2 => ?_⟩
    · exact complete_of_not_processing (complete_tasks_self h hp r) (hcstat r) r2
    · exact fail_of_not_processing (complete_tasks_self h hp r) (hcstat r) e
    · exact complete_of_not_processing (fail_tasks_self h hp e) (hfstat e) r
    · exact fail_of_not_processing (fail_tasks_self h hp e) (hfstat e) e2
  · intro ht
    exact ⟨complete_of_not_processing h ht, fail_of_not_processing h ht,
      updateProgress_of_not_processing h ht⟩

/-- Witness for C5: on the store holding the single freshly created task 0,
a repeated `complete` of task 0 changes nothing the second time. -/
theorem terminal_transition_at_most_once_witness :
    (runOps (initStore 5) [.create]).tasks 0 = some newTask ∧
    newTask.status = .processing ∧
    ((runOps (initStore 5) [.create]).complete 0
        ⟨"c.pdf", "sum", 1, "t2", none⟩).complete 0
        ⟨"d.pdf", "other", 9, "t3", none⟩ =
      (runOps (initStore 5) [.create]).complete 0 ⟨"c.pdf", "sum", 1, "t2", none⟩ :=
  ⟨rfl, rfl,
   ((terminal_transition_at_most_once (runOps (initStore 5) [.create]) 0 newTask
      rfl).1 rfl).1 ⟨"c.pdf", "sum", 1, "t2", none⟩ ⟨"d.pdf", "other", 9, "t3", none⟩⟩

/-- A slot that starts empty and whose id is issued by no `create` of the
run stays empty: mutations other than `create` touch only occupied slots,
and each `create` touches exactly the id it issues. -/
theorem runOps_tasks_none : ∀ (ops : List Op) (s : Store) (id : Nat),
    s.tasks id = none → id ∉ issuedIds s ops →
    (runOps s ops).tasks id = none := by
  intro ops
  induction ops with
  | nil => intro s id h _; exact h
  | cons op rest ih =>
    intro s id h hnot
    cases op with
    | create =>
      simp only [issuedIds, List.mem_cons, not_or] at hnot
      obtain ⟨hne, hrest⟩ := hnot
      refine ih _ id ?_ hrest
      simpa [applyOp, Store.create, hne] using h
    | updateProgress id0 p =>
      simp only [issuedIds] at hnot
      refine ih _ id ?_ hnot
      cases h0 : s.tasks id0 with
      | none => simpa [applyOp, Store.updateProgress, h0] using h
      | some t0 =>
        have hne : id ≠ id0 := by
          intro he
          rw [he, h0] at h
          cases h
        by_cases hp : t0.status = .processing <;>
          simpa [applyOp, Store.updateProgress, h0, hp, hne] using h
    | complete id0 r =>
      simp only [issuedIds] at hnot
      refine ih _ id ?_ hnot
      cases h0 : s.tasks id0 with
      | none => simpa [applyOp, Store.complete, h0] using h
      | some t0 =>
        have hne : id ≠ id0 := by
          intro he
          rw [he, h0] at h
          cases h
        by_cases hp : t0.status = .processing <;>
          simpa [applyOp, Store.complete, h0, hp, hne] using h
    | fail id0 e =>
      simp only [issuedIds] at hnot
      refine ih _ id ?_ hnot
      cases h0 : s.tasks id0 with
      | none => simpa [applyOp, Store.fail, h0] using h
      | some t0 =>
        have hne : id ≠ id0 := by
          intro he
          rw [he, h0] at h
          cases h
        by_cases hp : t0.status = .processing <;>
          simpa [applyOp, Store.fail, h0, hp, hne] using h

/-- C7: querying status for any task id that no submission of the run ever
issued answers `NotFound`, whatever the id value. -/
theorem unknown_id_query_notFound (cap : Nat) (ops : List Op) (id : Nat)
    (h : id ∉ issuedIds (initStore cap) ops) :
    (runOps (initStore cap) ops).queryStatus id = .notFound := by
  have hn := runOps_tasks_none ops (initStore cap) id rfl h
  simp [Store.queryStatus, hn]

/-- Witness for C7: a run that created and completed task 0 issued only
id 0, so a status query for id 7 answers `NotFound`. -/
theorem unknown_id_query_notFound_witness :
    7 ∉ issuedIds (initStore 5)
      [.create, .complete 0 ⟨"a.pdf", "sum", 2, "t0", none⟩] ∧
    (runOps (initStore 5)
        [.create, .complete 0 ⟨"a.pdf", "sum", 2, "t0", none⟩]).queryStatus 7 =
      .notFound :=
  ⟨by decide,
   unknown_id_query_notFound 5
     [.create, .complete 0 ⟨"a.pdf", "sum", 2, "t0", none⟩] 7 (by decide)⟩

/-- The sequential six-documents scenario, generalized: submit each
document and let it complete before the next submission — each pair is a
`create` (issuing the next sequential id) followed by the matching
`complete`. -/
def submitCompleteOps : Nat → List ProcessingResult → List Op
  | _, [] => []
  | startId, r :: rest =>
    .create :: .complete startId r :: submitCompleteOps (startId + 1) rest

/-- The history entries those completions append, in completion order. -/
def entriesFrom : Nat → List ProcessingResult → List HistoryItem
  | _, [] => []
  | startId, r :: rest =>
    historyEntryOf startId r :: entriesFrom (startId + 1) rest

/-- No store mutation changes the history capacity. -/
theorem applyOp_capacity (s : Store) (op : Op) :
    (applyOp s op).capacity = s.capacity := by
  cases op with
  | create => rfl
  | updateProgress id p =>
    cases h0 : s.tasks id with
    | none => simp [applyOp, Store.updateProgress, h0]
    | some t =>
      by_cases hp : t.status = .processing <;>
        simp [applyOp, Store.updateProgress, h0, hp]
  | complete id r =>
    cases h0 : s.tasks id with
    | none => simp [applyOp, Store.complete, h0]
    | some t =>
      by_cases hp : t.status = .processing <;>
        simp [applyOp, Store.complete, h0, hp]
  | fail id e =>
    cases h0 : s.tasks id with
    | none => simp [applyOp, Store.fail, h0]
    | some t =>
      by_cases hp : t.status = .processing <;>
        simp [applyOp, Store.fail, h0, hp]

/-- Appending with eviction below capacity is a plain append. -/
theorem pushHistory_of_lt (h : List HistoryItem) (e : HistoryItem) (cap : Nat)
    (hl : h.length < cap) : pushHistory h e cap = h ++ [e] := by
  unfold pushHistory
  rw [if_neg]
  simp only [List.length_append, List.length_singleton]
  omega

/-- Appending with eviction at capacity drops the oldest entry. -/
theorem pushHistory_of_eq (h : List HistoryItem) (e : HistoryItem) (cap : Nat)
    (hl : h.length = cap) : pushHistory h e cap = (h ++ [e]).tail := by
  unfold pushHistory
  rw [if_pos]
  simp only [List.length_append, List.length_singleton]
  omega

/-- One eviction step keeps the history within capacity. -/
theorem pushHistory_length_le (h : List HistoryItem) (e : HistoryItem)
    (cap : Nat) (hl : h.length ≤ cap) :
    (pushHistory h e cap).length ≤ cap := by
  unfold pushHistory
  split <;> rename_i hcond <;>
    simp only [List.length_tail, List.length_append, List.length_singleton]
      at hcond ⊢ <;> omega

/-- Only `complete` touches the history, and it does so through one
eviction step, so the bound is preserved by every mutation. -/
theorem applyOp_history_length (s : Store) (op : Op)
    (h : s.history.length ≤ s.capacity) :
    (applyOp s op).history.length ≤ s.capacity := by
  cases op with
  | create => exact h
  | updateProgress id p =>
    cases h0 : s.tasks id with
    | none => simpa [applyOp, Store.updateProgress, h0] using h
    | some t =>
      by_cases hp : t.status = .processing <;>
        simpa [applyOp, Store.updateProgress, h0, hp] using h
  | complete id r =>
    cases h0 : s.tasks id with
    | none => simpa [applyOp, Store.complete, h0] using h
    | some t =>
      by_cases hp : t.status = .processing
      · simpa [applyOp, Store.complete, h0, hp] using
          pushHistory_length_le s.history (historyEntryOf id r) s.capacity h
      · simpa [applyOp, Store.complete, h0, hp] using h
  | fail id e =>
    cases h0 : s.tasks id with
    | none => simpa [applyOp, Store.fail, h0] using h
    | some t =>
      by_cases hp : t.status = .processing <;>
        simpa [applyOp, Store.fail, h0, hp] using h

/-- Running any sequence of mutations keeps the history within the store's
capacity. -/
theorem runOps_history_le : ∀ (ops : List Op) (s : Store),
    s.history.length ≤ s.capacity →
    (runOps s ops).history.length ≤ s.capacity := by
  intro ops
  induction ops with
  | nil => intro s h; exact h
  | cons op rest ih =>
    intro s h
    have h2 := ih (applyOp s op)
      (by rw [applyOp_capacity]; exact applyOp_history_length s op h)
    rwa [applyOp_capacity] at h2

/-- Folding eviction steps below capacity is a plain append. -/
theorem foldl_pushHistory_append (cap : Nat) :
    ∀ (es : List HistoryItem) (h : List HistoryItem),
      h.length + es.length ≤ cap →
      es.foldl (fun acc e => pushHistory acc e cap) h = h ++ es := by
  intro es
  induction es with
  | nil => intro h _; simp
  | cons e rest ih =>
    intro h hle
    simp only [List.length_cons] at hle
    simp only [List.foldl_cons]
    rw [pushHistory_of_lt h e cap (by omega)]
    rw [ih (h ++ [e]) (by simp; omega)]
    simp

/-- Folding one entry past capacity evicts exactly the oldest entry. -/
theorem foldl_pushHistory_evicts (cap : Nat) :
    ∀ (es : List HistoryItem) (h : List HistoryItem), h.length ≤ cap →
      h.length + es.length = cap + 1 →
      es.foldl (fun acc e => pushHistory acc e cap) h = (h ++ es).tail := by
  intro es
  induction es with
  | nil =>
    intro h hle heq
    simp only [List.length_nil, Nat.add_zero] at heq
    omega
  | cons e rest ih =>
    intro h hle heq
    simp only [List.length_cons] at heq
    simp only [List.foldl_cons]
    by_cases hc : h.length = cap
    · have hrest : rest = [] := List.length_eq_zero.mp (by omega)
      subst hrest
      simp only [List.foldl_nil]
      exact pushHistory_of_eq h e cap hc
    · rw [pushHistory_of_lt h e cap (by omega)]
      rw [ih (h ++ [e]) (by simp; omega) (by simp; omega)]
      simp

/-- History effect of the sequential submit-and-complete scenario: each
completion performs exactly one eviction step with its own entry. -/
theorem runOps_submitComplete_history :
    ∀ (rs : List ProcessingResult) (s : Store),
      (runOps s (submitCompleteOps s.nextId rs)).history =
        (entriesFrom s.nextId rs).foldl
          (fun acc e => pushHistory acc e s.capacity) s.history := by
  intro rs
  induction rs with
  | nil => intro s; rfl
  | cons r rest ih =>
    intro s
    have ht : (applyOp s .create).tasks s.nextId = some newTask := by
      simp [applyOp, Store.create]
    have hnext :
        (applyOp (applyOp s .create) (.complete s.nextId r)).nextId =
          s.nextId + 1 := by
      simp [applyOp, Store.complete, Store.create, newTask]
    have hhist :
        (applyOp (applyOp s .create) (.complete s.nextId r)).history =
          pushHistory s.history (historyEntryOf s.nextId r) s.capacity := by
      simp [applyOp, Store.complete, Store.create, newTask]
    have hcap :
        (applyOp (applyOp s .create) (.complete s.nextId r)).capacity =
          s.capacity := by
      simp [applyOp, Store.complete, Store.create, newTask]
    have hrun := ih (applyOp (applyOp s .create) (.complete s.nextId r))
    simp only [hnext, hhist, hcap] at hrun
    simp only [submitCompleteOps, runOps, entriesFrom, List.foldl_cons]
    exact hrun

/-- Every entry the scenario appends from `startId` on carries a task id of
at least `startId`. -/
theorem entriesFrom_task_id_le :
    ∀ (rs : List ProcessingResult) (startId : Nat) (e : HistoryItem),
      e ∈ entriesFrom startId rs → startId ≤ e.task_id := by
  intro rs
  induction rs with
  | nil => intro startId e h; simp [entriesFrom] at h
  | cons r rest ih =>
    intro startId e h
    simp only [entriesFrom, List.mem_cons] at h
    rcases h with rfl | h
    · simp [historyEntryOf]
    · exact le_of_lt (Nat.lt_of_succ_le (ih (startId + 1) e h))

/-- Length of the appended entries equals the number of completions. -/
theorem entriesFrom_length : ∀ (rs : List ProcessingResult) (startId : Nat),
    (entriesFrom startId rs).length = rs.length := by
  intro rs
  induction rs with
  | nil => intro startId; rfl
  | cons r rest ih => intro startId; simp [entriesFrom, ih]

/-- C3: the history never exceeds the capacity `N` in any reachable store
state; after `N + 1` sequential successful completions the history is
exactly the last `N` entries in completion order — the first-completed
entry has been evicted FIFO, and in particular no surviving entry carries
the first task's id; and `fail` never touches history, so failed tasks
never appear in it. -/
theorem history_bounded_fifo (cap : Nat) :
    (∀ ops, (runOps (initStore cap) ops).history.length ≤ cap) ∧
    (∀ rs : List ProcessingResult, rs.length = cap + 1 →
      (runOps (initStore cap) (submitCompleteOps 0 rs)).history =
        (entriesFrom 0 rs).tail) ∧
    (∀ r rest (e : HistoryItem), e ∈ (entriesFrom 0 (r :: rest)).tail →
      e.task_id ≠ (historyEntryOf 0 r).task_id) ∧
    (∀ s id e, (Store.fail s id e).history = s.history) := by
  refine ⟨?_, ?_, ?_, ?_⟩
  · intro ops
    exact runOps_history_le ops (initStore cap) (by simp [initStore])
  · intro rs hlen
    have h := runOps_submitComplete_history rs (initStore cap)
    simp only [show (initStore cap).nextId = 0 from rfl,
      show (initStore cap).capacity = cap from rfl,
      show (initStore cap).history = [] from rfl] at h
    rw [h]
    rw [foldl_pushHistory_evicts cap (entriesFrom 0 rs) [] (by simp)
      (by simp [entriesFrom_length, hlen])]
    simp
  · intro r rest e he
    have h1 : (1 : Nat) ≤ e.task_id :=
      entriesFrom_task_id_le rest 1 e (by simpa [entriesFrom] using he)
    simp only [historyEntryOf]
    omega
  · intro s id e
    cases h0 : s.tasks id with
    | none => simp [Store.fail, h0]
    | some t =>
      by_cases hp : t.status = .processing <;> simp [Store.fail, h0, hp]

/-- Witness for C3: six sequential completions against capacity 5 leave
exactly the last five entries, in order. -/
theorem history_bounded_fifo_witness :
    ([⟨"f0", "s0", 1, "t0", none⟩, ⟨"f1", "s1", 1, "t1", none⟩,
      ⟨"f2", "s2", 1, "t2", none⟩, ⟨"f3", "s3", 1, "t3", none⟩,
      ⟨"f4", "s4", 1, "t4", none⟩, ⟨"f5", "s5", 1, "t5", none⟩] :
        List ProcessingResult).length = 5 + 1 ∧
    (runOps (initStore 5) (submitCompleteOps 0
      [⟨"f0", "s0", 1, "t0", none⟩, ⟨"f1", "s1", 1, "t1", none⟩,
       ⟨"f2", "s2", 1, "t2", none⟩, ⟨"f3", "s3", 1, "t3", none⟩,
       ⟨"f4", "s4", 1, "t4", none⟩, ⟨"f5", "s5", 1, "t5", none⟩])).history =
      (entriesFrom 0
        [⟨"f0", "s0", 1, "t0", none⟩, ⟨"f1", "s1", 1, "t1", none⟩,
         ⟨"f2", "s2", 1, "t2", none⟩, ⟨"f3", "s3", 1, "t3", none⟩,
         ⟨"f4", "s4", 1, "t4", none⟩, ⟨"f5", "s5", 1, "t5", none⟩]).tail :=
  ⟨rfl, (history_bounded_fifo 5).2.1
    [⟨"f0", "s0", 1, "t0", none⟩, ⟨"f1", "s1", 1, "t1", none⟩,
     ⟨"f2", "s2", 1, "t2", none⟩, ⟨"f3", "s3", 1, "t3", none⟩,
     ⟨"f4", "s4", 1, "t4", none⟩, ⟨"f5", "s5", 1, "t5", none⟩] rfl⟩

end PdfSummarizer
